import Mathlib

/-!
Verification development for the btrfs-backup repository.

The Go sources are shallowly embedded: pure logic (name parsing, policy
decisions, retention selection, config normalization) is translated into
executable Lean functions; effectful code (ssh commands, process pipelines)
is modelled by explicit environments describing the outcomes of external
commands, together with a trace of the remote actions issued.

Time instants (Go time.Time) are modelled as integer nanoseconds since the
Unix epoch; Go Duration arithmetic is modelled with exact integer
arithmetic.  Calendar timestamps parsed from snapshot names are modelled by
the DateTime structure below at second granularity, which is exactly the
granularity of the snapshot name format 2006-01-02_15-04-05.
-/

namespace BtrfsBackup

/-- Calendar timestamp at the granularity of the snapshot name format
(whole seconds, UTC), as produced by Go time.Parse of the layout
2006-01-02_15-04-05. -/
structure DateTime where
  year : Nat
  month : Nat
  day : Nat
  hour : Nat
  minute : Nat
  second : Nat
deriving DecidableEq, Repr

/-- Go time.Date leap-year rule. -/
def isLeapYear (y : Nat) : Bool :=
  y % 4 == 0 && (y % 100 != 0 || y % 400 == 0)

/-- Days in a month, as validated by Go time.Parse (day out of range for month). -/
def daysInMonth (y m : Nat) : Nat :=
  match m with
  | 1 => 31
  | 2 => if isLeapYear y then 29 else 28
  | 3 => 31
  | 4 => 30
  | 5 => 31
  | 6 => 30
  | 7 => 31
  | 8 => 31
  | 9 => 30
  | 10 => 31
  | 11 => 30
  | 12 => 31
  | _ => 0

/-- Timestamps representable in the fixed-width snapshot name format and
accepted by Go time.Parse range checking. -/
def ValidDateTime (t : DateTime) : Prop :=
  t.year ≤ 9999 ∧ 1 ≤ t.month ∧ t.month ≤ 12 ∧ 1 ≤ t.day ∧
    t.day ≤ daysInMonth t.year t.month ∧ t.hour ≤ 23 ∧ t.minute ≤ 59 ∧ t.second ≤ 59

instance (t : DateTime) : Decidable (ValidDateTime t) := by
  unfold ValidDateTime; infer_instance

/-- Decimal digit character for n taken mod 10. -/
def digitChar (n : Nat) : Char :=
  Char.ofNat (48 + n % 10)

/-- Characters of the Go format 2006-01-02_15-04-05 applied to a DateTime:
zero-padded 4-digit year and 2-digit fields, as printed by time.Format in
createSnapshot (snapshot.go) and main.go. -/
def formatTimestampChars (t : DateTime) : List Char :=
  [digitChar (t.year / 1000), digitChar (t.year / 100), digitChar (t.year / 10), digitChar t.year,
   '-', digitChar (t.month / 10), digitChar t.month,
   '-', digitChar (t.day / 10), digitChar t.day,
   '_', digitChar (t.hour / 10), digitChar t.hour,
   '-', digitChar (t.minute / 10), digitChar t.minute,
   '-', digitChar (t.second / 10), digitChar t.second]

/-- String form of the canonical timestamp (snapshotTimestampFormat in util.go). -/
def formatTimestamp (t : DateTime) : String :=
  String.mk (formatTimestampChars t)

/-- Shape of the regular expression dddd-dd-dd_dd-dd-dd from util.go
(snapshotTimestampRegexp) on a 19-character candidate. -/
def tsShape (cs : List Char) : Prop :=
  cs.length = 19 ∧
  (cs.getD 0 ' ').isDigit = true ∧ (cs.getD 1 ' ').isDigit = true ∧
  (cs.getD 2 ' ').isDigit = true ∧ (cs.getD 3 ' ').isDigit = true ∧
  cs.getD 4 ' ' = '-' ∧
  (cs.getD 5 ' ').isDigit = true ∧ (cs.getD 6 ' ').isDigit = true ∧
  cs.getD 7 ' ' = '-' ∧
  (cs.getD 8 ' ').isDigit = true ∧ (cs.getD 9 ' ').isDigit = true ∧
  cs.getD 10 ' ' = '_' ∧
  (cs.getD 11 ' ').isDigit = true ∧ (cs.getD 12 ' ').isDigit = true ∧
  cs.getD 13 ' ' = '-' ∧
  (cs.getD 14 ' ').isDigit = true ∧ (cs.getD 15 ' ').isDigit = true ∧
  cs.getD 16 ' ' = '-' ∧
  (cs.getD 17 ' ').isDigit = true ∧ (cs.getD 18 ' ').isDigit = true

instance (cs : List Char) : Decidable (tsShape cs) := by
  unfold tsShape; infer_instance

/-- The regular expression match attempted at the head of the character list:
some ts when the first 19 characters have the timestamp shape. -/
def timestampAt? (cs : List Char) : Option (List Char) :=
  if tsShape (cs.take 19) then some (cs.take 19) else none

/-- Leftmost match of the timestamp regular expression, as found by
FindStringSubmatch in extractSnapshotTimestamp (util.go). -/
def findTimestamp : List Char → Option (List Char)
  | [] => none
  | c :: rest =>
    match timestampAt? (c :: rest) with
    | some ts => some ts
    | none => findTimestamp rest

/-- Go filepath.Base on the character list of a path: empty path gives ".",
trailing slashes are dropped, then everything after the last slash is kept,
and a path of only slashes gives "/". -/
def goBaseChars (l : List Char) : List Char :=
  if l = [] then ['.'] else
  let r := l.reverse.dropWhile (fun c => c == '/')
  let b := (r.takeWhile (fun c => c != '/')).reverse
  if b = [] then ['/'] else b

/-- Go time.Parse of the layout 2006-01-02_15-04-05: requires the exact
fixed-width digit shape and checks the field ranges (month 1..12, day within
the month, hour below 24, minute and second below 60). -/
def parseTimestampChars (cs : List Char) : Option DateTime :=
  if tsShape cs then
    let num := fun (i : Nat) => (cs.getD i ' ').toNat - 48
    let y := num 0 * 1000 + num 1 * 100 + num 2 * 10 + num 3
    let mo := num 5 * 10 + num 6
    let d := num 8 * 10 + num 9
    let h := num 11 * 10 + num 12
    let mi := num 14 * 10 + num 15
    let s := num 17 * 10 + num 18
    if 1 ≤ mo ∧ mo ≤ 12 ∧ 1 ≤ d ∧ d ≤ daysInMonth y mo ∧ h ≤ 23 ∧ mi ≤ 59 ∧ s ≤ 59 then
      some ⟨y, mo, d, h, mi, s⟩
    else none
  else none

/-- extractSnapshotTimestamp from util.go: takes the base of the path, finds
the leftmost timestamp-shaped substring, and parses it; any failure along
the way is an error, modelled as none. -/
def extractSnapshotTimestamp (path : String) : Option DateTime :=
  match findTimestamp (goBaseChars path.data) with
  | none => none
  | some ts => parseTimestampChars ts

/-- Days since the Unix epoch of a civil date (proleptic Gregorian),
used to place parsed timestamps on the instant line. -/
def daysFromCivil (year month day : Nat) : Int :=
  let y : Int := if month ≤ 2 then (year : Int) - 1 else (year : Int)
  let era : Int := (if 0 ≤ y then y else y - 399) / 400
  let yoe : Int := y - era * 400
  let mp : Int := if 2 < month then (month : Int) - 3 else (month : Int) + 9
  let doy : Int := (153 * mp + 2) / 5 + (day : Int) - 1
  let doe : Int := yoe * 365 + yoe / 4 - yoe / 100 + doy
  era * 146097 + doe - 719468

/-- Instant (nanoseconds since the Unix epoch) of a parsed timestamp,
modelling the Go time.Time value returned by time.Parse (UTC). -/
def DateTime.toTime (t : DateTime) : Int :=
  (daysFromCivil t.year t.month t.day * 86400 +
    (t.hour : Int) * 3600 + (t.minute : Int) * 60 + (t.second : Int)) * 1000000000

/-- Go strings.TrimSpace on a character list: leading and trailing
whitespace removed. -/
def goTrim (l : List Char) : List Char :=
  ((l.dropWhile Char.isWhitespace).reverse.dropWhile Char.isWhitespace).reverse

/-- Go strings.TrimSpace on a string. -/
def goTrimSpace (s : String) : String :=
  String.mk (goTrim s.data)

/-- Go strings.Split on the newline separator: every newline starts a new
piece and empty pieces are preserved (the empty input gives one empty
piece). -/
def splitLines : List Char → List (List Char)
  | [] => [[]]
  | c :: rest =>
    let ls := splitLines rest
    if c = '\n' then [] :: ls
    else (c :: ls.headD []) :: ls.tail

/-- Volume from the configuration model (config part of the sources). -/
structure Volume where
  name : String
  src : String
  snapDir : String
deriving DecidableEq, Repr

/-- Config from the configuration model.  Go int fields are modelled as Int. -/
structure Config where
  sshKey : String
  remoteHost : String
  remoteDest : String
  maxAgeDays : Int
  maxIncrementals : Int
  encryptionKey : String
  volumes : List Volume
deriving DecidableEq, Repr

/-- loadConfig: the file read and YAML unmarshal step is modelled by taking
the already-unmarshalled Config (absent YAML fields are Go zero values, so 0
for ints and "" for strings); this function is the normalization the code
performs afterwards: a zero maxAgeDays is replaced by 7 and the encryption
key is trimmed of surrounding whitespace. -/
def loadConfig (cfg : Config) : Config :=
  let cfg1 := if cfg.maxAgeDays = 0 then { cfg with maxAgeDays := 7 } else cfg
  { cfg1 with encryptionKey := goTrimSpace cfg1.encryptionKey }

/-- remoteFileSuffix from remote.go. -/
def remoteFileSuffix (cfg : Config) : String :=
  if cfg.encryptionKey ≠ "" then ".btrfs.age" else ".btrfs"

/-- remoteBackup record from remote.go; the Timestamp is the instant of the
parsed name timestamp. -/
structure RemoteBackup where
  name : String
  timestamp : Int
  kind : String
deriving DecidableEq, Repr

/-- Strips a literal character sequence from the front of a list, returning
the remainder when the whole literal is present. -/
def chopLit : List Char → List Char → Option (List Char)
  | [], l => some l
  | _ :: _, [] => none
  | p :: ps, c :: cs => if p = c then chopLit ps cs else none

/-- Anchored match of one listing line against the backup filename pattern
from listRemoteBackups (remote.go): volume name, a dash, a 19-character
timestamp, a dot, the kind full or inc, and exactly the configured suffix;
the timestamp is then parsed, and a parse failure skips the line. -/
def matchBackupLine (volName suffix line : String) : Option RemoteBackup :=
  match chopLit (volName.data ++ ['-']) line.data with
  | none => none
  | some rest =>
    if tsShape (rest.take 19) then
      match rest.drop 19 with
      | '.' :: afterDot =>
        match chopLit "full".data afterDot with
        | some afterKind =>
          if afterKind = suffix.data then
            (parseTimestampChars (rest.take 19)).map (fun ts => ⟨line, ts.toTime, "full"⟩)
          else none
        | none =>
          match chopLit "inc".data afterDot with
          | some afterKind =>
            if afterKind = suffix.data then
              (parseTimestampChars (rest.take 19)).map (fun ts => ⟨line, ts.toTime, "inc"⟩)
            else none
          | none => none
      | _ => none
    else none

/-- Ordering used to sort the remote inventory ascending by timestamp. -/
def backupLE (a b : RemoteBackup) : Prop :=
  a.timestamp ≤ b.timestamp

instance : DecidableRel backupLE :=
  fun a b => Int.decLe a.timestamp b.timestamp

instance : IsTotal RemoteBackup backupLE :=
  ⟨fun a b => Int.le_total a.timestamp b.timestamp⟩

instance : IsTrans RemoteBackup backupLE :=
  ⟨fun _ _ _ h1 h2 => le_trans h1 h2⟩

/-- The parsing stage of listRemoteBackups from remote.go, with the output
of the remote listing command passed in as a string: the output is trimmed
and split into lines (an entirely blank output meaning no lines), each
line is trimmed, blank lines are skipped, and lines are matched against
the filename pattern. -/
def parseRemoteListing (cfg : Config) (vol : Volume) (output : String) : List RemoteBackup :=
  let linesRaw := splitLines (goTrim output.data)
  let lines := if linesRaw.length = 1 ∧ goTrim (linesRaw.headD []) = [] then [] else linesRaw
  lines.filterMap (fun rawLine =>
    let line := goTrim rawLine
    if line = [] then none
    else matchBackupLine vol.name (remoteFileSuffix cfg) (String.mk line))

/-- The full listRemoteBackups from remote.go: parse the listing, then
sort ascending by timestamp.  Go sort.Slice with a Before comparison is
modelled by an insertion sort producing an ascending permutation of the
matches. -/
def listRemoteBackups (cfg : Config) (vol : Volume) (output : String) : List RemoteBackup :=
  List.insertionSort backupLE (parseRemoteListing cfg vol output)

/-- remoteBackupForTimestamp from remote.go. -/
def remoteBackupForTimestamp (backups : List RemoteBackup) (ts : Int) : Bool :=
  backups.any (fun b => b.timestamp == ts)

/-- latestRemoteFull from remote.go: scans from the end for the last entry
of kind full. -/
def latestRemoteFull (backups : List RemoteBackup) : Option RemoteBackup :=
  backups.reverse.find? (fun b => b.kind == "full")

/-- countIncrementalsSince from remote.go: counts entries of kind inc whose
timestamp is strictly after the given instant. -/
def countIncrementalsSince : List RemoteBackup → Int → Nat
  | [], _ => 0
  | b :: rest, since =>
    (if b.kind = "inc" ∧ since < b.timestamp then 1 else 0) + countIncrementalsSince rest since

/-- needsFullBackup from remote.go.  The remote listing performed inside the
Go function is modelled by the listResult argument (error or the sorted
inventory); currentTime is an instant in nanoseconds. -/
def needsFullBackup (cfg : Config) (listResult : Except Unit (List RemoteBackup))
    (oldSnap : String) (currentTime : Int) : Bool :=
  if oldSnap = "" then true else
  match listResult with
  | Except.error _ => true
  | Except.ok remoteBackups =>
    if remoteBackups.length = 0 then true else
    match extractSnapshotTimestamp oldSnap with
    | none => true
    | some oldSnapTime =>
      if ¬ (remoteBackupForTimestamp remoteBackups oldSnapTime.toTime = true) then true else
      match latestRemoteFull remoteBackups with
      | none => true
      | some lastFull =>
        if cfg.maxAgeDays > 0 ∧
            currentTime - lastFull.timestamp ≥ cfg.maxAgeDays * (24 * 3600000000000) then true else
        if cfg.maxIncrementals > 0 ∧
            (countIncrementalsSince remoteBackups lastFull.timestamp : Int) ≥ cfg.maxIncrementals then true else
        false

/-- The selection step of cleanupOldBackups (remote.go): with fewer than two
backups or fewer than two full entries nothing is deleted; otherwise every
entry whose timestamp is strictly before the timestamp of the
second-to-last full entry is selected for deletion. -/
def cleanupOldBackups (backups : List RemoteBackup) : List RemoteBackup :=
  if backups.length < 2 then [] else
  let fullBackups := backups.filter (fun b => b.kind == "full")
  match fullBackups.reverse with
  | _ :: secondToLastFull :: _ =>
    backups.filter (fun b => decide (b.timestamp < secondToLastFull.timestamp))
  | _ => []

/-- Outcomes of the external stages of the sendSnapshot pipeline
(remote.go): each field tells whether the corresponding subprocess step
succeeds.  The encryption fields are consulted only when an encryption key
is configured. -/
structure SendEnv where
  pipeOk : Bool
  encPipeOk : Bool
  sendStartOk : Bool
  encStartOk : Bool
  sshRunOk : Bool
  encWaitOk : Bool
  sendWaitOk : Bool
deriving DecidableEq, Repr

/-- A remote file operation issued over ssh, carrying the path it touches:
writeFile is the remote cat into a path, removeFile a remote rm -f of a
path. -/
inductive RemoteOp where
  | writeFile (path : String)
  | removeFile (path : String)
deriving DecidableEq, Repr

/-- The path a remote operation touches. -/
def RemoteOp.path : RemoteOp → String
  | RemoteOp.writeFile p => p
  | RemoteOp.removeFile p => p

/-- Go filepath.Join of a clean directory and a file name. -/
def joinPath (dir file : String) : String :=
  dir ++ "/" ++ file

/-- sendSnapshot from remote.go, with subprocess outcomes supplied by env
and the digest of the streamed bytes supplied as hashHex.  Returns the Go
(checksum, err) pair as an Except together with the ordered trace of remote
file operations issued.  The deferred cleanup removes the remote temp file
whenever the function returns without having set its success flag (and not
in dry-run); the remote write command targets only the temp file. -/
def sendSnapshot (cfg : Config) (outfile : String) (dryRun : Bool) (env : SendEnv)
    (hashHex : String) : Except String String × List RemoteOp :=
  let tmpFile := outfile ++ ".tmp"
  let tmpPath := joinPath cfg.remoteDest tmpFile
  let useEnc := cfg.encryptionKey ≠ ""
  if dryRun then (Except.ok "", []) else
  if env.pipeOk = false then (Except.error "stdout pipe failed", [RemoteOp.removeFile tmpPath]) else
  if useEnc ∧ env.encPipeOk = false then
    (Except.error "stdout pipe failed", [RemoteOp.removeFile tmpPath]) else
  if env.sendStartOk = false then
    (Except.error "btrfs send start failed", [RemoteOp.removeFile tmpPath]) else
  if useEnc ∧ env.encStartOk = false then
    (Except.error "age start failed", [RemoteOp.removeFile tmpPath]) else
  if env.sshRunOk = false then
    (Except.error "ssh failed", [RemoteOp.writeFile tmpPath, RemoteOp.removeFile tmpPath]) else
  if useEnc ∧ env.encWaitOk = false then
    (Except.error "age failed", [RemoteOp.writeFile tmpPath, RemoteOp.removeFile tmpPath]) else
  if env.sendWaitOk = false then
    (Except.error "btrfs send failed", [RemoteOp.writeFile tmpPath, RemoteOp.removeFile tmpPath]) else
  (Except.ok hashHex, [RemoteOp.writeFile tmpPath])

/-- Accumulating helper for goFields: collects the current field in
reverse while scanning the characters. -/
def goFieldsAux : List Char → List Char → List (List Char)
  | [], acc => if acc = [] then [] else [acc.reverse]
  | c :: rest, acc =>
    if c.isWhitespace then
      if acc = [] then goFieldsAux rest [] else acc.reverse :: goFieldsAux rest []
    else goFieldsAux rest (c :: acc)

/-- Go strings.Fields: maximal whitespace-separated substrings. -/
def goFields (s : String) : List String :=
  (goFieldsAux s.data []).map String.mk

/-- Go strings.EqualFold modelled as case-insensitive comparison. -/
def eqFold (a b : String) : Bool :=
  a.data.map Char.toLower == b.data.map Char.toLower

/-- validateRemoteChecksum from remote.go, with the output of the remote
sha256sum command supplied (none when the remote command itself failed):
the first whitespace-separated field of the trimmed output must equal the
expected checksum up to case. -/
def validateRemoteChecksum (shaOutput : Option String) (checksum : String) :
    Except String Unit :=
  match shaOutput with
  | none => Except.error "sha256sum command failed"
  | some output =>
    match goFields (goTrimSpace output) with
    | [] => Except.error "unable to parse remote checksum output"
    | remoteChecksum :: _ =>
      if eqFold remoteChecksum checksum then Except.ok ()
      else Except.error "checksum mismatch"

/-- Outcomes of the remote commands run by moveTmpFile: whether the rename
succeeds, the output of the remote sha256sum used for re-validation, and
whether the sidecar write command succeeds. -/
structure MoveEnv where
  mvOk : Bool
  shaOutput : Option String
  sidecarOk : Bool
deriving DecidableEq, Repr

/-- The remote effects of moveTmpFile: the rename of the temp file onto the
final name, the deletion of the final file, and the write of the checksum
sidecar with the given full content line. -/
inductive MoveOp where
  | rename
  | removeFinal
  | writeSidecar (content : String)
deriving DecidableEq, Repr

/-- moveTmpFile from remote.go: renames the temp file onto the final name;
then, when a checksum was supplied (and not in dry-run), re-validates the
final file checksum, deleting the final file and returning the error on
mismatch; with an empty checksum it stops after the rename; otherwise it
writes the sidecar record digest, two spaces, filename, newline. -/
def moveTmpFile (cfg : Config) (outfile checksum : String) (dryRun : Bool)
    (env : MoveEnv) : Except String Unit × List MoveOp :=
  if dryRun then (Except.ok (), []) else
  if env.mvOk = false then (Except.error "mv failed", [MoveOp.rename]) else
  if checksum ≠ "" then
    match validateRemoteChecksum env.shaOutput checksum with
    | Except.error e => (Except.error e, [MoveOp.rename, MoveOp.removeFinal])
    | Except.ok _ =>
      let content := checksum ++ "  " ++ outfile ++ "\n"
      ((if env.sidecarOk then Except.ok () else Except.error "sidecar write failed"),
        [MoveOp.rename, MoveOp.writeSidecar content])
  else (Except.ok (), [MoveOp.rename])

/-- The example inventory from the retention description: a full, an
incremental, a newer full, and a newer incremental, in ascending order. -/
def exInvTwoChains : List RemoteBackup :=
  [⟨"vol-2024-01-01_00-00-00.full.btrfs", 1, "full"⟩,
   ⟨"vol-2024-01-02_00-00-00.inc.btrfs", 2, "inc"⟩,
   ⟨"vol-2024-01-03_00-00-00.full.btrfs", 3, "full"⟩,
   ⟨"vol-2024-01-04_00-00-00.inc.btrfs", 4, "inc"⟩]

/-- A three-chain inventory: with three full entries the code deletes the
entries strictly before the second-to-last full. -/
def exInvThreeChains : List RemoteBackup :=
  [⟨"vol-2024-01-01_00-00-00.full.btrfs", 1, "full"⟩,
   ⟨"vol-2024-01-02_00-00-00.inc.btrfs", 2, "inc"⟩,
   ⟨"vol-2024-01-03_00-00-00.full.btrfs", 3, "full"⟩,
   ⟨"vol-2024-01-04_00-00-00.inc.btrfs", 4, "inc"⟩,
   ⟨"vol-2024-01-05_00-00-00.full.btrfs", 5, "full"⟩,
   ⟨"vol-2024-01-06_00-00-00.inc.btrfs", 6, "inc"⟩]

/-- An inventory with a single full entry surrounded by incrementals:
fewer than two fulls, so retention must select nothing. -/
def exInvSingleFull : List RemoteBackup :=
  [⟨"vol-2024-01-01_00-00-00.inc.btrfs", 0, "inc"⟩,
   ⟨"vol-2024-01-02_00-00-00.full.btrfs", 1, "full"⟩,
   ⟨"vol-2024-01-03_00-00-00.inc.btrfs", 2, "inc"⟩]

/-- A configuration with the age rule at 7 days and the incremental rule
disabled. -/
def exCfgAge : Config :=
  ⟨"", "host", "/dest", 7, 0, "", []⟩

/-- A configuration with the age rule disabled and the incremental rule at
two incrementals. -/
def exCfgInc : Config :=
  ⟨"", "host", "/dest", 0, 2, "", []⟩

/-- Instant of 2024-01-01 00:00:00. -/
def tsJan1 : Int :=
  DateTime.toTime ⟨2024, 1, 1, 0, 0, 0⟩

/-- Inventory holding one full backup at 2024-01-01. -/
def exInvOneFull : List RemoteBackup :=
  [⟨"vol-2024-01-01_00-00-00.full.btrfs", tsJan1, "full"⟩]

/-- Inventory full at 2024-01-01 followed by incrementals on the next two
days. -/
def exInvTwoIncs : List RemoteBackup :=
  [⟨"vol-2024-01-01_00-00-00.full.btrfs", DateTime.toTime ⟨2024, 1, 1, 0, 0, 0⟩, "full"⟩,
   ⟨"vol-2024-01-02_00-00-00.inc.btrfs", DateTime.toTime ⟨2024, 1, 2, 0, 0, 0⟩, "inc"⟩,
   ⟨"vol-2024-01-03_00-00-00.inc.btrfs", DateTime.toTime ⟨2024, 1, 3, 0, 0, 0⟩, "inc"⟩]

/-- A pipeline environment in which the remote write stage fails and
everything else succeeds. -/
def exEnvSshFail : SendEnv :=
  ⟨true, true, true, true, false, true, true⟩

/-- A moveTmpFile environment in which the rename succeeds but the remote
re-validation reports a different digest. -/
def exEnvBadChecksum : MoveEnv :=
  ⟨true, some "deadbeef  /dest/out.btrfs", true⟩

end BtrfsBackup

namespace BtrfsBackup

/-! Helper lemmas about the embedded definitions. -/

theorem digitChar_isDigit (n : Nat) : (digitChar n).isDigit = true := by
  have h : n % 10 < 10 := Nat.mod_lt n (by norm_num)
  unfold digitChar
  revert h
  generalize n % 10 = k
  intro h
  interval_cases k <;> decide

theorem digitChar_ne_slash (n : Nat) : digitChar n ≠ '/' := by
  have h : n % 10 < 10 := Nat.mod_lt n (by norm_num)
  unfold digitChar
  revert h
  generalize n % 10 = k
  intro h
  interval_cases k <;> decide

theorem digitChar_toNat (n : Nat) : (digitChar n).toNat = 48 + n % 10 := by
  have h : n % 10 < 10 := Nat.mod_lt n (by norm_num)
  unfold digitChar
  revert h
  generalize n % 10 = k
  intro h
  interval_cases k <;> decide

theorem formatTimestampChars_length (t : DateTime) :
    (formatTimestampChars t).length = 19 := by
  simp [formatTimestampChars]

theorem formatTimestampChars_tsShape (t : DateTime) :
    tsShape (formatTimestampChars t) :=
  ⟨formatTimestampChars_length t,
   digitChar_isDigit _, digitChar_isDigit _, digitChar_isDigit _, digitChar_isDigit _, rfl,
   digitChar_isDigit _, digitChar_isDigit _, rfl,
   digitChar_isDigit _, digitChar_isDigit _, rfl,
   digitChar_isDigit _, digitChar_isDigit _, rfl,
   digitChar_isDigit _, digitChar_isDigit _, rfl,
   digitChar_isDigit _, digitChar_isDigit _⟩

theorem formatTimestampChars_no_slash (t : DateTime) :
    ∀ c ∈ formatTimestampChars t, c ≠ '/' := by
  intro c hc
  fin_cases hc <;> first | exact digitChar_ne_slash _ | decide

theorem goBaseChars_of_no_slash (l : List Char) (hne : l ≠ [])
    (h : ∀ c ∈ l, c ≠ '/') : goBaseChars l = l := by
  unfold goBaseChars
  rw [if_neg hne]
  have hdrop : l.reverse.dropWhile (fun c => c == '/') = l.reverse := by
    rw [List.dropWhile_eq_self_iff]
    intro hl hp
    have hm : l.reverse.get ⟨0, hl⟩ ∈ l := by
      rw [← List.mem_reverse]
      exact List.get_mem _ _ _
    exact h _ hm (by simpa using hp)
  have htake : l.reverse.takeWhile (fun c => c != '/') = l.reverse := by
    rw [List.takeWhile_eq_self_iff]
    intro c hc
    have hm : c ∈ l := List.mem_reverse.mp hc
    simpa using h c hm
  simp only [hdrop, htake, List.reverse_reverse]
  rw [if_neg hne]

theorem chopLit_eq_some (p : List Char) :
    ∀ l r : List Char, chopLit p l = some r → l = p ++ r := by
  induction p with
  | nil =>
    intro l r h
    simp [chopLit] at h
    simp [h]
  | cons c cs ih =>
    intro l r h
    cases l with
    | nil => simp [chopLit] at h
    | cons d ds =>
      unfold chopLit at h
      by_cases hcd : c = d
      · rw [if_pos hcd] at h
        have := ih ds r h
        simp [← hcd, this]
      · rw [if_neg hcd] at h
        cases h

theorem timestampAt?_none_of_head_not_digit (c : Char) (rest : List Char)
    (h : c.isDigit = false) : timestampAt? (c :: rest) = none := by
  unfold timestampAt?
  rw [if_neg]
  intro hs
  have h0 : ((c :: rest).take 19).getD 0 ' ' = c := rfl
  have := hs.2.1
  rw [h0] at this
  rw [this] at h
  cases h

theorem findTimestamp_append_not_digit (pre rest : List Char)
    (h : ∀ c ∈ pre, c.isDigit = false) :
    findTimestamp (pre ++ rest) = findTimestamp rest := by
  induction pre with
  | nil => rfl
  | cons c cs ih =>
    have hc : c.isDigit = false := h c (by simp)
    have hrec := ih (fun d hd => h d (by simp [hd]))
    have hnone := timestampAt?_none_of_head_not_digit c (cs ++ rest) hc
    rw [List.cons_append]
    conv_lhs => rw [findTimestamp]
    rw [hnone]
    exact hrec

theorem findTimestamp_of_head_match (l ts : List Char) (hne : l ≠ [])
    (h : timestampAt? l = some ts) : findTimestamp l = some ts := by
  cases l with
  | nil => exact absurd rfl hne
  | cons c cs =>
    unfold findTimestamp
    rw [h]

theorem timestampAt?_format (t : DateTime) :
    timestampAt? (formatTimestampChars t) = some (formatTimestampChars t) := by
  unfold timestampAt?
  rw [List.take_of_length_le (by rw [formatTimestampChars_length])]
  rw [if_pos (formatTimestampChars_tsShape t)]

theorem parse_format (t : DateTime) (h : ValidDateTime t) :
    parseTimestampChars (formatTimestampChars t) = some t := by
  obtain ⟨hy, hmo1, hmo2, hd1, hd2, hhh, hmi, hss⟩ := h
  have hdm : daysInMonth t.year t.month ≤ 31 := by
    unfold daysInMonth
    split <;> first | omega | (split <;> omega)
  unfold parseTimestampChars
  rw [if_pos (formatTimestampChars_tsShape t)]
  simp only []
  have g0 : (formatTimestampChars t).getD 0 ' ' = digitChar (t.year / 1000) := rfl
  have g1 : (formatTimestampChars t).getD 1 ' ' = digitChar (t.year / 100) := rfl
  have g2 : (formatTimestampChars t).getD 2 ' ' = digitChar (t.year / 10) := rfl
  have g3 : (formatTimestampChars t).getD 3 ' ' = digitChar t.year := rfl
  have g5 : (formatTimestampChars t).getD 5 ' ' = digitChar (t.month / 10) := rfl
  have g6 : (formatTimestampChars t).getD 6 ' ' = digitChar t.month := rfl
  have g8 : (formatTimestampChars t).getD 8 ' ' = digitChar (t.day / 10) := rfl
  have g9 : (formatTimestampChars t).getD 9 ' ' = digitChar t.day := rfl
  have g11 : (formatTimestampChars t).getD 11 ' ' = digitChar (t.hour / 10) := rfl
  have g12 : (formatTimestampChars t).getD 12 ' ' = digitChar t.hour := rfl
  have g14 : (formatTimestampChars t).getD 14 ' ' = digitChar (t.minute / 10) := rfl
  have g15 : (formatTimestampChars t).getD 15 ' ' = digitChar t.minute := rfl
  have g17 : (formatTimestampChars t).getD 17 ' ' = digitChar (t.second / 10) := rfl
  have g18 : (formatTimestampChars t).getD 18 ' ' = digitChar t.second := rfl
  rw [g0, g1, g2, g3, g5, g6, g8, g9, g11, g12, g14, g15, g17, g18]
  simp only [digitChar_toNat]
  have ey : (48 + t.year / 1000 % 10 - 48) * 1000 + (48 + t.year / 100 % 10 - 48) * 100 +
      (48 + t.year / 10 % 10 - 48) * 10 + (48 + t.year % 10 - 48) = t.year := by omega
  have emo : (48 + t.month / 10 % 10 - 48) * 10 + (48 + t.month % 10 - 48) = t.month := by omega
  have ed : (48 + t.day / 10 % 10 - 48) * 10 + (48 + t.day % 10 - 48) = t.day := by omega
  have ehh : (48 + t.hour / 10 % 10 - 48) * 10 + (48 + t.hour % 10 - 48) = t.hour := by omega
  have emi : (48 + t.minute / 10 % 10 - 48) * 10 + (48 + t.minute % 10 - 48) = t.minute := by omega
  have ess : (48 + t.second / 10 % 10 - 48) * 10 + (48 + t.second % 10 - 48) = t.second := by omega
  rw [ey, emo, ed, ehh, emi, ess]
  rw [if_pos ⟨hmo1, hmo2, hd1, hd2, hhh, hmi, hss⟩]

/-! Claim theorems. -/

/-- C8: for any timestamp t representable in the snapshot name format,
parsing the canonical snapshot name formatted from t (prefix
btrfs-backup- followed by the formatted timestamp) with
extractSnapshotTimestamp succeeds and returns t. -/
theorem extractSnapshotTimestamp_roundTrip (t : DateTime) (h : ValidDateTime t) :
    extractSnapshotTimestamp ("btrfs-backup-" ++ formatTimestamp t) = some t := by
  have hdata : ("btrfs-backup-" ++ formatTimestamp t).data =
      "btrfs-backup-".data ++ formatTimestampChars t := by
    rw [String.data_append]
    rfl
  have hpre : ∀ c ∈ "btrfs-backup-".data, c ≠ '/' := by decide
  have hnoslash : ∀ c ∈ "btrfs-backup-".data ++ formatTimestampChars t, c ≠ '/' := by
    intro c hc
    rcases List.mem_append.mp hc with hp | hfmt
    · exact hpre c hp
    · exact formatTimestampChars_no_slash t c hfmt
  have hne : "btrfs-backup-".data ++ formatTimestampChars t ≠ [] := by
    intro hcontra
    have := congrArg List.length hcontra
    rw [List.length_append, formatTimestampChars_length] at this
    simp at this
  unfold extractSnapshotTimestamp
  rw [hdata, goBaseChars_of_no_slash _ hne hnoslash]
  rw [findTimestamp_append_not_digit _ _ (by decide)]
  rw [findTimestamp_of_head_match _ _ (by
        intro hcontra
        have := congrArg List.length hcontra
        rw [formatTimestampChars_length] at this
        simp at this)
      (timestampAt?_format t)]
  exact parse_format t h

/-- C8 witness: the round trip at a concrete valid timestamp. -/
theorem extractSnapshotTimestamp_roundTrip_witness :
    ValidDateTime ⟨2024, 6, 15, 12, 30, 45⟩ ∧
      extractSnapshotTimestamp ("btrfs-backup-" ++ formatTimestamp ⟨2024, 6, 15, 12, 30, 45⟩) =
        some ⟨2024, 6, 15, 12, 30, 45⟩ :=
  ⟨by decide, extractSnapshotTimestamp_roundTrip ⟨2024, 6, 15, 12, 30, 45⟩ (by decide)⟩

/-- C1 counterexample: on the inventory full, inc, full, inc of the claim,
cleanupOldBackups selects nothing for deletion, not the two oldest
entries claimed. -/
theorem cleanupOldBackups_example_counterexample :
    cleanupOldBackups exInvTwoChains = [] := by decide

/-- C1 amended: when the inventory has at least two full entries (the
reversed filter starts with the last and second-to-last fulls),
cleanupOldBackups selects for deletion exactly the entries strictly older
than the second-to-last full entry (keeping the last two full chains);
otherwise — fewer than two backups in total, or fewer than two full
entries — it selects nothing. -/
theorem cleanupOldBackups_second_to_last_full (backups : List RemoteBackup) :
    (∀ lastF sndF : RemoteBackup, ∀ rest : List RemoteBackup,
      (backups.filter (fun b => b.kind == "full")).reverse = lastF :: sndF :: rest →
      ∀ b, b ∈ cleanupOldBackups backups ↔ b ∈ backups ∧ b.timestamp < sndF.timestamp) ∧
    (backups.length < 2 → cleanupOldBackups backups = []) ∧
    ((backups.filter (fun b => b.kind == "full")).length < 2 →
      cleanupOldBackups backups = []) := by
  refine ⟨?_, ?_, ?_⟩
  · intro lastF sndF rest hrev b
    have hlen : 2 ≤ backups.length := by
      have h1 : (backups.filter (fun b => b.kind == "full")).length ≤ backups.length :=
        List.length_filter_le _ _
      have h2 := congrArg List.length hrev
      rw [List.length_reverse] at h2
      simp only [List.length_cons] at h2
      omega
    unfold cleanupOldBackups
    rw [if_neg (by omega)]
    simp only [hrev]
    rw [List.mem_filter]
    simp
  · intro hlen
    unfold cleanupOldBackups
    rw [if_pos hlen]
  · intro hfew
    unfold cleanupOldBackups
    by_cases hlen : backups.length < 2
    · rw [if_pos hlen]
    · rw [if_neg hlen]
      cases hrev : (backups.filter (fun b => b.kind == "full")).reverse with
      | nil => simp only [hrev]
      | cons lastF tail =>
        cases tail with
        | nil => simp only [hrev]
        | cons sndF rest =>
          exfalso
          have h2 := congrArg List.length hrev
          rw [List.length_reverse] at h2
          simp only [List.length_cons] at h2
          omega

/-- C1 amended witness: on a three-full inventory the entry before the
second-to-last full is selected, and on a single-full inventory nothing
is selected. -/
theorem cleanupOldBackups_second_to_last_full_witness :
    (⟨"vol-2024-01-02_00-00-00.inc.btrfs", 2, "inc"⟩ : RemoteBackup) ∈
        cleanupOldBackups exInvThreeChains ∧
      cleanupOldBackups exInvSingleFull = [] := by
  constructor
  · exact ((cleanupOldBackups_second_to_last_full exInvThreeChains).1
      ⟨"vol-2024-01-05_00-00-00.full.btrfs", 5, "full"⟩
      ⟨"vol-2024-01-03_00-00-00.full.btrfs", 3, "full"⟩
      [⟨"vol-2024-01-01_00-00-00.full.btrfs", 1, "full"⟩]
      (by decide) ⟨"vol-2024-01-02_00-00-00.inc.btrfs", 2, "inc"⟩).mpr (by decide)
  · exact (cleanupOldBackups_second_to_last_full exInvSingleFull).2.2 (by decide)

/-- C2: deletion selection never contains a full entry of maximal
timestamp, and every selected entry is strictly older than it. -/
theorem cleanupOldBackups_preserves_latest_full (backups : List RemoteBackup)
    (f : RemoteBackup) (hmem : f ∈ backups) (hkind : f.kind = "full")
    (hmax : ∀ g ∈ backups, g.kind = "full" → g.timestamp ≤ f.timestamp) :
    f ∉ cleanupOldBackups backups ∧
      ∀ b ∈ cleanupOldBackups backups, b.timestamp < f.timestamp := by
  by_cases h2 : backups.length < 2
  · unfold cleanupOldBackups
    rw [if_pos h2]
    simp
  · unfold cleanupOldBackups
    rw [if_neg h2]
    cases hrev : (backups.filter (fun b => b.kind == "full")).reverse with
    | nil => simp only [hrev]; simp
    | cons lastF tail =>
      cases tail with
      | nil => simp only [hrev]; simp
      | cons sndF rest =>
        simp only [hrev]
        have hsnd : sndF ∈ backups.filter (fun b => b.kind == "full") := by
          rw [← List.mem_reverse, hrev]
          simp
        rw [List.mem_filter] at hsnd
        have hker : sndF.kind = "full" := by simpa using hsnd.2
        have hle : sndF.timestamp ≤ f.timestamp := hmax sndF hsnd.1 hker
        constructor
        · intro hf
          rw [List.mem_filter] at hf
          have := of_decide_eq_true hf.2
          omega
        · intro b hb
          rw [List.mem_filter] at hb
          have := of_decide_eq_true hb.2
          omega

/-- C2 witness: on the three-full inventory the latest full, at timestamp
5, is not selected for deletion. -/
theorem cleanupOldBackups_preserves_latest_full_witness :
    (⟨"vol-2024-01-05_00-00-00.full.btrfs", 5, "full"⟩ : RemoteBackup) ∉
      cleanupOldBackups exInvThreeChains :=
  (cleanupOldBackups_preserves_latest_full exInvThreeChains
    ⟨"vol-2024-01-05_00-00-00.full.btrfs", 5, "full"⟩
    (by decide) (by decide) (by decide)).1

/-- C9: after loadConfig normalization, a zero (or YAML-absent, hence zero)
max age becomes 7 days while a nonzero one is kept, the incremental limit
is passed through unchanged (so it stays 0 and disabled when unset), and
the encryption key is trimmed of surrounding whitespace. -/
theorem loadConfig_defaults (c : Config) :
    (c.maxAgeDays = 0 → (loadConfig c).maxAgeDays = 7) ∧
    (c.maxAgeDays ≠ 0 → (loadConfig c).maxAgeDays = c.maxAgeDays) ∧
    (loadConfig c).maxIncrementals = c.maxIncrementals ∧
    (loadConfig c).encryptionKey = goTrimSpace c.encryptionKey := by
  unfold loadConfig
  by_cases h : c.maxAgeDays = 0 <;> simp [h]

/-- C9 witness: a configuration with zero max age, zero incremental limit,
and a padded encryption key. -/
theorem loadConfig_defaults_witness :
    (loadConfig ⟨"", "host", "/dest", 0, 0, "  age1key  ", []⟩).maxAgeDays = 7 ∧
      (loadConfig ⟨"", "host", "/dest", 0, 0, "  age1key  ", []⟩).maxIncrementals = 0 ∧
      (loadConfig ⟨"", "host", "/dest", 0, 0, "  age1key  ", []⟩).encryptionKey = "age1key" := by
  have h := loadConfig_defaults ⟨"", "host", "/dest", 0, 0, "  age1key  ", []⟩
  refine ⟨h.1 rfl, h.2.2.1, ?_⟩
  rw [h.2.2.2]
  decide

/-- C5: with a nonempty local snapshot whose extracted timestamp has no
matching entry in the successfully retrieved nonempty inventory,
needsFullBackup decides full, whatever the thresholds and current time
are (so before and independently of the age and incremental rules). -/
theorem needsFullBackup_gap_forces_full (cfg : Config) (backups : List RemoteBackup)
    (oldSnap : String) (currentTime : Int) (dt : DateTime)
    (hne : oldSnap ≠ "") (hnb : backups ≠ [])
    (hext : extractSnapshotTimestamp oldSnap = some dt)
    (hgap : remoteBackupForTimestamp backups dt.toTime = false) :
    needsFullBackup cfg (Except.ok backups) oldSnap currentTime = true := by
  by_cases hlen : backups.length = 0 <;>
    simp [needsFullBackup, hne, hext, hgap, hlen]

/-- C5 witness: inventory with only a full at 2024-01-01 and a local
snapshot at 2024-01-02 with no matching remote entry. -/
theorem needsFullBackup_gap_forces_full_witness :
    needsFullBackup exCfgAge (Except.ok exInvOneFull)
      "btrfs-backup-2024-01-02_00-00-00" tsJan1 = true :=
  needsFullBackup_gap_forces_full exCfgAge exInvOneFull
    "btrfs-backup-2024-01-02_00-00-00" tsJan1 ⟨2024, 1, 2, 0, 0, 0⟩
    (by decide) (by decide) (by decide) (by decide)

/-- Counting incrementals after an instant equals the length of the
corresponding filter of the inventory. -/
theorem countIncrementalsSince_eq_filter (backups : List RemoteBackup) (since : Int) :
    countIncrementalsSince backups since =
      (backups.filter (fun b => b.kind == "inc" && decide (since < b.timestamp))).length := by
  induction backups with
  | nil => rfl
  | cons b rest ih =>
    unfold countIncrementalsSince
    rw [List.filter_cons]
    by_cases hb : b.kind = "inc" ∧ since < b.timestamp
    · have hcond : (b.kind == "inc" && decide (since < b.timestamp)) = true := by
        simp only [Bool.and_eq_true, beq_iff_eq, decide_eq_true_eq]
        exact hb
      rw [if_pos hb, if_pos hcond, List.length_cons, ih]
      omega
    · have hcond : ¬ ((b.kind == "inc" && decide (since < b.timestamp)) = true) := by
        simp only [Bool.and_eq_true, beq_iff_eq, decide_eq_true_eq]
        exact hb
      rw [if_neg hb, if_neg hcond, ih]
      omega

/-- C6: when the incremental limit is configured nonzero and the inventory
has a latest full entry, needsFullBackup decides full as soon as the count
of incremental entries strictly after that full's timestamp reaches the
limit; the count is exactly the number of entries of kind inc with
timestamp strictly after the full's (so the full itself and entries at or
before it are not counted). -/
theorem needsFullBackup_incremental_limit (cfg : Config) (backups : List RemoteBackup)
    (oldSnap : String) (currentTime : Int) (f : RemoteBackup)
    (hmaxi : cfg.maxIncrementals > 0)
    (hfull : latestRemoteFull backups = some f)
    (hcount : (countIncrementalsSince backups f.timestamp : Int) ≥ cfg.maxIncrementals) :
    needsFullBackup cfg (Except.ok backups) oldSnap currentTime = true ∧
      countIncrementalsSince backups f.timestamp =
        (backups.filter (fun b => b.kind == "inc" && decide (f.timestamp < b.timestamp))).length := by
  refine ⟨?_, countIncrementalsSince_eq_filter backups f.timestamp⟩
  by_cases h0 : oldSnap = ""
  · simp [needsFullBackup, h0]
  · by_cases hlen : backups.length = 0
    · simp [needsFullBackup, h0, hlen]
    · cases hext : extractSnapshotTimestamp oldSnap with
      | none => simp [needsFullBackup, h0, hlen, hext]
      | some dt =>
        by_cases hgap : remoteBackupForTimestamp backups dt.toTime = true
        · simp [needsFullBackup, h0, hlen, hext, hgap, hfull]
          omega
        · simp [needsFullBackup, h0, hlen, hext, hgap]

/-- C6 witness: the example from the specification, a full at 2024-01-01
with incrementals on the next two days, local snapshot matching the last
incremental, and a limit of two incrementals. -/
theorem needsFullBackup_incremental_limit_witness :
    needsFullBackup exCfgInc (Except.ok exInvTwoIncs)
      "btrfs-backup-2024-01-03_00-00-00" (DateTime.toTime ⟨2024, 1, 3, 0, 0, 0⟩) = true :=
  (needsFullBackup_incremental_limit exCfgInc exInvTwoIncs
    "btrfs-backup-2024-01-03_00-00-00" (DateTime.toTime ⟨2024, 1, 3, 0, 0, 0⟩)
    ⟨"vol-2024-01-01_00-00-00.full.btrfs", DateTime.toTime ⟨2024, 1, 1, 0, 0, 0⟩, "full"⟩
    (by decide) (by decide) (by decide)).1

/-- C7 counterexample: the claimed equivalence (true exactly when the age
bound is reached) fails on the code: with maxAgeDays seven, an inventory
holding a fresh full, and a local snapshot with no matching remote entry,
needsFullBackup is true while the age bound is not reached. -/
theorem needsFullBackup_age_iff_counterexample :
    ¬ (needsFullBackup exCfgAge (Except.ok exInvOneFull)
        "btrfs-backup-2024-01-02_00-00-00" tsJan1 = true ↔
       tsJan1 - tsJan1 ≥ exCfgAge.maxAgeDays * (24 * 3600000000000)) := by
  decide

/-- C7 amended: with the age rule configured nonzero and a latest full
entry in the inventory, reaching the inclusive age bound always forces a
full; and when no other rule fires (matching remote entry for the local
snapshot and the incremental rule not triggering), needsFullBackup is true
exactly when the age since the latest full reaches the bound, with the
boundary included. -/
theorem needsFullBackup_age_rule (cfg : Config) (backups : List RemoteBackup)
    (oldSnap : String) (currentTime : Int) (f : RemoteBackup)
    (hfull : latestRemoteFull backups = some f) (hage0 : cfg.maxAgeDays > 0) :
    (currentTime - f.timestamp ≥ cfg.maxAgeDays * (24 * 3600000000000) →
      needsFullBackup cfg (Except.ok backups) oldSnap currentTime = true) ∧
    (∀ dt : DateTime, oldSnap ≠ "" →
      extractSnapshotTimestamp oldSnap = some dt →
      remoteBackupForTimestamp backups dt.toTime = true →
      ¬ (cfg.maxIncrementals > 0 ∧
          (countIncrementalsSince backups f.timestamp : Int) ≥ cfg.maxIncrementals) →
      (needsFullBackup cfg (Except.ok backups) oldSnap currentTime = true ↔
        currentTime - f.timestamp ≥ cfg.maxAgeDays * (24 * 3600000000000))) := by
  have hnb : backups ≠ [] := by
    intro h
    rw [h] at hfull
    cases hfull
  have hlen : ¬ backups.length = 0 := by
    simpa [List.length_eq_zero] using hnb
  constructor
  · intro hcond
    by_cases h0 : oldSnap = ""
    · simp [needsFullBackup, h0]
    · cases hext : extractSnapshotTimestamp oldSnap with
      | none => simp [needsFullBackup, h0, hlen, hext]
      | some dt =>
        by_cases hgap : remoteBackupForTimestamp backups dt.toTime = true
        · simp [needsFullBackup, h0, hlen, hext, hgap, hfull]
          omega
        · simp [needsFullBackup, h0, hlen, hext, hgap]
  · intro dt h0 hext hgap hninc
    constructor
    · intro htrue
      simp [needsFullBackup, h0, hlen, hext, hgap, hfull] at htrue
      omega
    · intro hcond
      simp [needsFullBackup, h0, hlen, hext, hgap, hfull]
      omega

/-- C7 witness: with only a full at 2024-01-01, maxAgeDays seven, a
matching local snapshot, and current time eight days later, the decision
is full. -/
theorem needsFullBackup_age_rule_witness :
    needsFullBackup exCfgAge (Except.ok exInvOneFull)
      "btrfs-backup-2024-01-01_00-00-00" (tsJan1 + 8 * 86400000000000) = true :=
  (needsFullBackup_age_rule exCfgAge exInvOneFull
    "btrfs-backup-2024-01-01_00-00-00" (tsJan1 + 8 * 86400000000000)
    ⟨"vol-2024-01-01_00-00-00.full.btrfs", tsJan1, "full"⟩
    (by decide) (by decide)).1 (by decide)

/-- C3: with a nonempty digest and a successful rename (outside dry-run),
a failed re-validation of the final file makes moveTmpFile delete the
final file, return the validation error, and write no sidecar; a
successful re-validation makes it write the sidecar record digest, two
spaces, filename, newline. -/
theorem moveTmpFile_checksum_validation (cfg : Config) (outfile checksum : String)
    (env : MoveEnv) (hcs : checksum ≠ "") (hmv : env.mvOk = true) :
    (∀ e, validateRemoteChecksum env.shaOutput checksum = Except.error e →
      (moveTmpFile cfg outfile checksum false env).1 = Except.error e ∧
      MoveOp.removeFinal ∈ (moveTmpFile cfg outfile checksum false env).2 ∧
      ∀ c, MoveOp.writeSidecar c ∉ (moveTmpFile cfg outfile checksum false env).2) ∧
    (validateRemoteChecksum env.shaOutput checksum = Except.ok () →
      MoveOp.writeSidecar (checksum ++ "  " ++ outfile ++ "\n") ∈
        (moveTmpFile cfg outfile checksum false env).2 ∧
      MoveOp.removeFinal ∉ (moveTmpFile cfg outfile checksum false env).2) := by
  constructor
  · intro e he
    simp [moveTmpFile, hmv, hcs, he]
  · intro hok
    simp [moveTmpFile, hmv, hcs, hok]

/-- C3 witness: a concrete environment reporting a different digest makes
moveTmpFile fail with the mismatch error and delete the final file. -/
theorem moveTmpFile_checksum_validation_witness :
    (moveTmpFile exCfgAge "out.btrfs" "abc123" false exEnvBadChecksum).1 =
        Except.error "checksum mismatch" ∧
      MoveOp.removeFinal ∈ (moveTmpFile exCfgAge "out.btrfs" "abc123" false exEnvBadChecksum).2 :=
  ⟨((moveTmpFile_checksum_validation exCfgAge "out.btrfs" "abc123" exEnvBadChecksum
      (by decide) (by decide)).1 "checksum mismatch" (by rfl)).1,
   ((moveTmpFile_checksum_validation exCfgAge "out.btrfs" "abc123" exEnvBadChecksum
      (by decide) (by decide)).1 "checksum mismatch" (by rfl)).2.1⟩

/-- Appending the temp extension inside a joined path changes the path. -/
theorem joinPath_tmp_ne (d o : String) : joinPath d (o ++ ".tmp") ≠ joinPath d o := by
  intro h
  have hlen := congrArg String.length h
  have h4 : String.length ".tmp" = 4 := rfl
  simp only [joinPath, String.length_append] at hlen
  omega

/-- C4: outside dry-run, every error return of sendSnapshot issues the
removal of the remote temp file as its last remote operation, every remote
operation it ever issues targets the temp path and never the final path,
and on success no removal is issued (the temp file is left in place). -/
theorem sendSnapshot_temp_cleanup (cfg : Config) (outfile : String) (env : SendEnv)
    (hashHex : String) :
    ((sendSnapshot cfg outfile false env hashHex).1.isOk = false →
      (sendSnapshot cfg outfile false env hashHex).2.getLast? =
        some (RemoteOp.removeFile (joinPath cfg.remoteDest (outfile ++ ".tmp")))) ∧
    (∀ op ∈ (sendSnapshot cfg outfile false env hashHex).2,
      op.path = joinPath cfg.remoteDest (outfile ++ ".tmp") ∧
      op.path ≠ joinPath cfg.remoteDest outfile) ∧
    ((sendSnapshot cfg outfile false env hashHex).1.isOk = true →
      ∀ p, RemoteOp.removeFile p ∉ (sendSnapshot cfg outfile false env hashHex).2) := by
  have hne := joinPath_tmp_ne cfg.remoteDest outfile
  obtain ⟨p1, p2, p3, p4, p5, p6, p7⟩ := env
  by_cases henc : cfg.encryptionKey = "" <;>
    cases p1 <;> cases p2 <;> cases p3 <;> cases p4 <;> cases p5 <;> cases p6 <;> cases p7 <;>
      simp [sendSnapshot, henc, hne, RemoteOp.path, Except.isOk, Except.toBool]

/-- C4 witness: a failing remote write stage yields an error and the trace
ends with the removal of the temp file. -/
theorem sendSnapshot_temp_cleanup_witness :
    (sendSnapshot exCfgAge "vol.full.btrfs" false exEnvSshFail "h").1.isOk = false ∧
      (sendSnapshot exCfgAge "vol.full.btrfs" false exEnvSshFail "h").2.getLast? =
        some (RemoteOp.removeFile (joinPath exCfgAge.remoteDest ("vol.full.btrfs" ++ ".tmp"))) :=
  ⟨by decide,
   (sendSnapshot_temp_cleanup exCfgAge "vol.full.btrfs" exEnvSshFail "h").1 (by decide)⟩

/-- A successful anchored literal strip means the original list is the
literal followed by the remainder. -/
theorem matchBackupLine_name (vn sfx line : String) (b : RemoteBackup)
    (h : matchBackupLine vn sfx line = some b) :
    b.name = line ∧ ∃ pre, line.data = pre ++ sfx.data := by
  unfold matchBackupLine at h
  split at h
  · simp at h
  next rest heqChop =>
    have hline : line.data = (vn.data ++ ['-']) ++ rest := chopLit_eq_some _ _ _ heqChop
    have hsplit : rest.take 19 ++ rest.drop 19 = rest := List.take_append_drop 19 rest
    split at h
    case isFalse => simp at h
    split at h
    next afterDot heqDrop =>
      split at h
      next afterKind heqKind =>
        split at h
        case isFalse => simp at h
        case isTrue hsfx =>
          cases hp : parseTimestampChars (rest.take 19) with
          | none => rw [hp] at h; simp at h
          | some ts =>
            rw [hp] at h
            simp only [Option.map_some', Option.some.injEq] at h
            refine ⟨by rw [← h], vn.data ++ ['-'] ++ (rest.take 19 ++ ('.' :: "full".data)), ?_⟩
            have hak : afterDot = "full".data ++ afterKind := chopLit_eq_some _ _ _ heqKind
            have hrest : rest = rest.take 19 ++ ('.' :: ("full".data ++ sfx.data)) := by
              conv_lhs => rw [← hsplit]
              rw [heqDrop, hak, hsfx]
            conv_lhs => rw [hline, hrest]
            simp
      next =>
        split at h
        next afterKind heqKind =>
          split at h
          case isFalse => simp at h
          case isTrue hsfx =>
            cases hp : parseTimestampChars (rest.take 19) with
            | none => rw [hp] at h; simp at h
            | some ts =>
              rw [hp] at h
              simp only [Option.map_some', Option.some.injEq] at h
              refine ⟨by rw [← h], vn.data ++ ['-'] ++ (rest.take 19 ++ ('.' :: "inc".data)), ?_⟩
              have hak : afterDot = "inc".data ++ afterKind := chopLit_eq_some _ _ _ heqKind
              have hrest : rest = rest.take 19 ++ ('.' :: ("inc".data ++ sfx.data)) := by
                conv_lhs => rw [← hsplit]
                rw [heqDrop, hak, hsfx]
              conv_lhs => rw [hline, hrest]
              simp
        next => simp at h
    next => simp at h

/-- Every entry returned by the listing carries a name ending in the
configured suffix. -/
theorem listRemoteBackups_suffix (cfg : Config) (vol : Volume) (output : String) :
    ∀ b ∈ listRemoteBackups cfg vol output,
      ∃ pre, b.name.data = pre ++ (remoteFileSuffix cfg).data := by
  intro b hb
  have hb2 : b ∈ parseRemoteListing cfg vol output :=
    ((List.perm_insertionSort backupLE (parseRemoteListing cfg vol output)).mem_iff).mp hb
  unfold parseRemoteListing at hb2
  simp only [List.mem_filterMap] at hb2
  rcases hb2 with ⟨rawLine, _, hf⟩
  by_cases hemp : goTrim rawLine = []
  · simp [hemp] at hf
  · rw [if_neg hemp] at hf
    obtain ⟨hn, pre, hp⟩ := matchBackupLine_name _ _ _ _ hf
    exact ⟨pre, by rw [hn]; exact hp⟩

/-- C10: every entry of the remote inventory has a name ending in the
suffix selected by the encryption setting, the inventory is sorted
ascending by timestamp, and an inventory taken under encryption shares no
name with one taken without (so entries of the opposite setting are
invisible to all policy and retention decisions, which consume only this
listing). -/
theorem listRemoteBackups_suffix_sorted (cfg cfg2 : Config) (vol : Volume) (output : String) :
    (∀ b ∈ listRemoteBackups cfg vol output,
      ∃ pre, b.name.data = pre ++ (remoteFileSuffix cfg).data) ∧
    List.Sorted backupLE (listRemoteBackups cfg vol output) ∧
    (cfg.encryptionKey ≠ "" → cfg2.encryptionKey = "" →
      ∀ b ∈ listRemoteBackups cfg vol output, ∀ b2 ∈ listRemoteBackups cfg2 vol output,
        b.name ≠ b2.name) := by
  refine ⟨listRemoteBackups_suffix cfg vol output, ?_, ?_⟩
  · exact List.sorted_insertionSort backupLE (parseRemoteListing cfg vol output)
  · intro hk1 hk2 b hb b2 hb2 heq
    obtain ⟨pre, hpre⟩ := listRemoteBackups_suffix cfg vol output b hb
    obtain ⟨pre2, hpre2⟩ := listRemoteBackups_suffix cfg2 vol output b2 hb2
    rw [remoteFileSuffix, if_pos hk1] at hpre
    rw [remoteFileSuffix, if_neg (by simp [hk2])] at hpre2
    have hdata : b.name.data = b2.name.data := by rw [heq]
    rw [hpre, hpre2] at hdata
    have hlast := congrArg List.getLast? hdata
    rw [List.getLast?_append, List.getLast?_append] at hlast
    simp at hlast

/-- C10 witness: under encryption, a listing with a plain and an encrypted
file (newest first) yields exactly the encrypted entry, sorted. -/
theorem listRemoteBackups_suffix_sorted_witness :
    (∃ pre, ("vol-2024-01-01_00-00-00.full.btrfs.age").data =
      pre ++ (remoteFileSuffix ⟨"", "host", "/dest", 7, 0, "k", []⟩).data) := by
  have h := (listRemoteBackups_suffix_sorted ⟨"", "host", "/dest", 7, 0, "k", []⟩ exCfgAge
    ⟨"vol", "/src", "/snap"⟩
    "vol-2024-01-01_00-00-00.full.btrfs.age\nvol-2024-01-02_00-00-00.full.btrfs").1
  have hm : (⟨"vol-2024-01-01_00-00-00.full.btrfs.age",
      DateTime.toTime ⟨2024, 1, 1, 0, 0, 0⟩, "full"⟩ : RemoteBackup) ∈
      listRemoteBackups ⟨"", "host", "/dest", 7, 0, "k", []⟩ ⟨"vol", "/src", "/snap"⟩
        "vol-2024-01-01_00-00-00.full.btrfs.age\nvol-2024-01-02_00-00-00.full.btrfs" := by
    decide
  exact h _ hm

end BtrfsBackup
